import Mathlib

/-!
Verification of the ytpriv comment-aggregation service.

Text is modelled as `List Char` (ASCII fragment of Python `str`).  Each
definition is a direct translation of the corresponding Python function;
side-effecting collaborators (network fetches, database inserts, the AI
backend) are passed in as explicit oracle parameters.
-/

/-- Python whitespace characters recognised by `str.strip()` / `str.split()`
(ASCII fragment). -/
def isPySpace (c : Char) : Bool :=
  c == ' ' || c == '\t' || c == '\n' || c == '\r' || c == '\x0b' || c == '\x0c'

/-- Python `str.strip()`: drop leading and trailing whitespace. -/
def pyStrip (l : List Char) : List Char :=
  ((l.dropWhile isPySpace).reverse.dropWhile isPySpace).reverse

/-- Python `str.lower()` on the ASCII fragment: map A-Z to a-z. -/
def lowerChar (c : Char) : Char :=
  if 65 ≤ c.toNat && c.toNat ≤ 90 then Char.ofNat (c.toNat + 32) else c

/-- The ASCII alphanumerics: A-Z, a-z, 0-9. -/
def isAlnumAscii (c : Char) : Bool :=
  (65 ≤ c.toNat && c.toNat ≤ 90) || (97 ≤ c.toNat && c.toNat ≤ 122) ||
    (48 ≤ c.toNat && c.toNat ≤ 57)

/-- Fragment of Python's Unicode `str.isalnum()`: the ASCII alphanumerics
together with the non-ASCII letters exercised in this development ('é',
'É' and the dotted capital 'İ', U+0130).  Python accepts further Unicode
letters and digits, none of which any claim depends on, and rejects
combining marks such as U+0307, as this fragment does. -/
def pyIsAlnum (c : Char) : Bool :=
  isAlnumAscii c || c == 'é' || c == 'É' || c == 'İ'

/-- Fragment of Python's Unicode `str.lower()` on one character: ASCII
upper-case letters map to their lower-case forms, the dotted capital 'İ'
(U+0130) maps to the two-codepoint string "i" followed by the combining
dot above (U+0307), and every other character maps to itself.  Further
Unicode upper-case letters also lower-case in Python; none is needed by a
claim. -/
def pyLowerChar (c : Char) : List Char :=
  if c = 'İ' then ['i', '̇']
  else if 65 ≤ c.toNat && c.toNat ≤ 90 then [Char.ofNat (c.toNat + 32)]
  else [c]

/-- Python `str.lower()` on a string: concatenation of the per-character
lowerings (a character may lower to more than one codepoint). -/
def pyLowerStr (l : List Char) : List Char :=
  l.flatMap pyLowerChar

/-- Does `hay` start with `needle`? -/
def leadsWith : List Char → List Char → Bool
  | [], _ => true
  | _ :: _, [] => false
  | a :: as, b :: bs => a == b && leadsWith as bs

/-- Python `needle in hay` substring containment. -/
def occursIn (needle : List Char) : List Char → Bool
  | [] => leadsWith needle []
  | b :: rest => leadsWith needle (b :: rest) || occursIn needle rest

/-- Helper for `pySplit`: accumulates the current word (reversed). -/
def splitWsAux : List Char → List Char → List (List Char)
  | [], acc => if acc.isEmpty then [] else [acc.reverse]
  | c :: rest, acc =>
    if isPySpace c then
      if acc.isEmpty then splitWsAux rest [] else acc.reverse :: splitWsAux rest []
    else splitWsAux rest (c :: acc)

/-- Python `str.split()` with no argument: split on whitespace runs, no
empty words. -/
def pySplit (l : List Char) : List (List Char) :=
  splitWsAux l []

/-- A raw reply as produced by the platform fetch services
(`services/youtube_service.py`, `services/reddit_service.py`): the dict keys
read by `get_unique_comments_unified`.  `likes` and `author_profile` are
optional because the code reads them with `.get(..., default)`. -/
structure RawReply where
  author : List Char
  text : List Char
  likes : Option Int
  published_at : List Char
  author_profile : Option (List Char)
deriving DecidableEq

/-- A raw top-level comment with its nested replies. -/
structure RawComment where
  author : List Char
  text : List Char
  likes : Option Int
  published_at : List Char
  author_profile : Option (List Char)
  replies : List RawReply
deriving DecidableEq

/-- The `video_info` sub-dict of a video-platform content item. -/
structure VideoInfo where
  title : List Char
deriving DecidableEq

/-- The `post_info` sub-dict of a discussion-platform content item. -/
structure PostInfo where
  title : List Char
  subreddit : List Char
deriving DecidableEq

/-- One entry of the `videos_data` list consumed by
`get_unique_comments_unified` (a video-with-comments or a one-comment
reddit post wrapper).  Optional fields model the `.get` lookups. -/
structure ContentItem where
  source : Option (List Char)
  video_info : Option VideoInfo
  post_info : Option PostInfo
  comments : List RawComment
deriving DecidableEq

/-- A deduplicated reply stored under a `UComment`
(comment_fetcher.py lines 361-368). -/
structure UReply where
  author : List Char
  text : List Char
  likes : Int
  published_at : List Char
  author_profile : List Char
  source : List Char
deriving DecidableEq

/-- A deduplicated unique-comment entry (comment_fetcher.py lines 343-353). -/
structure UComment where
  author : List Char
  text : List Char
  likes : Int
  published_at : List Char
  author_profile : List Char
  source : List Char
  video_title : List Char
  subreddit : List Char
  replies : List UReply
deriving DecidableEq

/-- The running state of `get_unique_comments_unified`: the insertion-ordered
dict `unique_comments` as an association list keyed by trimmed text, plus the
two counters. -/
structure UniqState where
  assoc : List (List Char × UComment)
  total_comments : Nat
  total_replies : Nat
deriving DecidableEq

/-- Python `comment_text in unique_comments` key-membership test. -/
def keyMem (k : List Char) (assoc : List (List Char × UComment)) : Bool :=
  assoc.any (fun p => p.1 == k)

/-- Dict lookup `unique_comments[comment_text]`. -/
def lookupA (k : List Char) : List (List Char × UComment) → Option UComment
  | [] => none
  | p :: rest => if p.1 == k then some p.2 else lookupA k rest

/-- In-place mutation of the entry stored under key `k`. -/
def updateA (k : List Char) (f : UComment → UComment) :
    List (List Char × UComment) → List (List Char × UComment)
  | [] => []
  | p :: rest => if p.1 == k then (p.1, f p.2) :: rest else p :: updateA k f rest

/-- The title fallback chain
`video.get('video_info', {}).get('title', video.get('post_info', {}).get('title', 'Unknown'))`. -/
def itemTitle (v : ContentItem) : List Char :=
  match v.video_info with
  | some vi => vi.title
  | none =>
    match v.post_info with
    | some pi => pi.title
    | none => "Unknown".toList

/-- `video.get('post_info', {}).get('subreddit', '')`. -/
def itemSubreddit (v : ContentItem) : List Char :=
  match v.post_info with
  | some pi => pi.subreddit
  | none => []

/-- One iteration of the reply loop of `get_unique_comments_unified`
(comment_fetcher.py lines 358-369): a reply is appended (and counted) when
its trimmed text is non-empty, not among the snapshot `existing` of reply
texts taken before the loop, and longer than 3 characters. -/
def replyStep (t src : List Char) (existing : List (List Char))
    (st2 : UniqState) (r : RawReply) : UniqState :=
  let rt := pyStrip r.text
  if !rt.isEmpty && !(existing.any (fun x => x == rt)) && 3 < rt.length then
    { st2 with
      assoc := updateA t
        (fun e =>
          { e with replies := e.replies ++
              [{ author := r.author, text := rt, likes := r.likes.getD 0,
                 published_at := r.published_at,
                 author_profile := r.author_profile.getD [],
                 source := src }] }) st2.assoc,
      total_replies := st2.total_replies + 1 }
  else st2

/-- Processing of one raw comment by `get_unique_comments_unified`
(comment_fetcher.py lines 335-369): skip short texts, insert a new entry for
an unseen trimmed text, then walk the replies against the snapshot
`existing_replies` taken before the reply loop. -/
def stepComment (src title subr : List Char) (st : UniqState) (c : RawComment) :
    UniqState :=
  let t := pyStrip c.text
  if t.isEmpty || t.length < 3 then st
  else
    let st1 : UniqState :=
      if keyMem t st.assoc then st
      else
        { st with
          assoc := st.assoc ++
            [(t, { author := c.author, text := t, likes := c.likes.getD 0,
                   published_at := c.published_at,
                   author_profile := c.author_profile.getD [],
                   source := src, video_title := title, subreddit := subr,
                   replies := [] })],
          total_comments := st.total_comments + 1 }
    let existing : List (List Char) :=
      ((lookupA t st1.assoc).map (fun e => e.replies.map (fun r => r.text))).getD []
    c.replies.foldl (replyStep t src existing) st1

/-- Processing of one content item (comment_fetcher.py lines 332-369). -/
def stepItem (st : UniqState) (v : ContentItem) : UniqState :=
  v.comments.foldl (stepComment (v.source.getD "unknown".toList) (itemTitle v) (itemSubreddit v)) st

/-- `UnifiedCommentFetcher.get_unique_comments_unified`
(comment_fetcher.py lines 326-371). -/
def get_unique_comments_unified (videos_data : List ContentItem) :
    List UComment × Nat × Nat :=
  let st := videos_data.foldl stepItem ⟨[], 0, 0⟩
  (st.assoc.map (fun p => p.2), st.total_comments, st.total_replies)

/-- `Config.MAX_FILENAME_LENGTH` (config.py line 45, environment default 50). -/
def MAX_FILENAME_LENGTH : Nat := 50

/-- Fixpoint of the loop `while '__' in s: s = s.replace('__', '_')`
(file_utils.py lines 23-24): every run of underscores collapses to one. -/
def collapseUnd : List Char → List Char
  | [] => []
  | c :: rest =>
    match rest with
    | '_' :: _ => if c == '_' then collapseUnd rest else c :: collapseUnd rest
    | _ => c :: collapseUnd rest

/-- Python `str.rstrip('_')`: drop trailing underscores. -/
def rstripUnd : List Char → List Char
  | [] => []
  | c :: rest =>
    let r := rstripUnd rest
    if r.isEmpty then (if c == '_' then [] else [c]) else c :: r

/-- `sanitize_filename` (file_utils.py lines 11-38).  The character filter
is Python's Unicode `c.isalnum()` and the final step Python's Unicode
`str.lower()`, both modelled by the fragments above. -/
def sanitize_filename (s : List Char) : List Char :=
  if s.isEmpty || (pyStrip s).isEmpty then "unknown_file".toList
  else
    let s1 := (pyStrip s).map (fun c => if c == ' ' then '_' else c)
    let s2 := s1.filter (fun c => pyIsAlnum c || c == '_' || c == '-')
    let s3 := collapseUnd s2
    let s4 := s3.take MAX_FILENAME_LENGTH
    let s5 := rstripUnd s4
    let s6 := if s5.isEmpty then "file".toList else s5
    pyLowerStr s6

/-- The restriction of `sanitize_filename` to the ASCII fragments of
`isalnum` and `lower` (`isAlnumAscii`, one-character `lowerChar`).
`sanitize_ascii_eq` proves it agrees with `sanitize_filename` on ASCII
input; the ASCII-fragment properties of the sanitizer are proved of this
function first and transported along that equality. -/
def sanitize_filename_ascii (s : List Char) : List Char :=
  if s.isEmpty || (pyStrip s).isEmpty then "unknown_file".toList
  else
    let s1 := (pyStrip s).map (fun c => if c == ' ' then '_' else c)
    let s2 := s1.filter (fun c => isAlnumAscii c || c == '_' || c == '-')
    let s3 := collapseUnd s2
    let s4 := s3.take MAX_FILENAME_LENGTH
    let s5 := rstripUnd s4
    let s6 := if s5.isEmpty then "file".toList else s5
    s6.map lowerChar

/-- `validate_query` (utils/helpers.py lines 94-111). -/
def validate_query (query : List Char) : Bool × String :=
  if query.isEmpty || (pyStrip query).isEmpty then (false, "Query cannot be empty")
  else
    let q := pyStrip query
    if q.length < 2 then (false, "Query must be at least 2 characters long")
    else if 500 < q.length then (false, "Query must be less than 500 characters")
    else if q.any (fun c => c == '<' || c == '>' || c == '"' || c == '\'' || c == '&') then
      (false, "Query contains invalid characters")
    else (true, "Query is valid")

/-- `RedditService.filter_comment_relevance` (reddit_service.py lines 68-85).
`query_terms` is the iteration order of the Python set argument; the half
point for a partial single-term match is modelled in `ℚ` exactly as the
float `0.5`. -/
def filter_comment_relevance (comment_text : List Char)
    (query_terms : List (List Char)) : Bool :=
  let comment_lower := comment_text.map lowerChar
  let base : ℚ := ((query_terms.filter (fun t => occursIn t comment_lower)).length : ℚ)
  let matching : ℚ :=
    if query_terms.length = 1 ∧ 3 < (query_terms.headD []).length ∧
        occursIn ((query_terms.headD []).take 4) comment_lower = true
    then base + 1/2 else base
  if 1 < query_terms.length then
    decide ((((max 1 (query_terms.length / 2)) : Nat) : ℚ) ≤ matching)
  else decide (0 < matching)

/-- The hardcoded `relevant_subreddits` candidate list of
`RedditService.search_subreddits` (reddit_service.py lines 33-38): twenty
names. -/
def relevant_subreddits : List (List Char) :=
  ["all", "AskReddit", "todayilearned", "news", "worldnews",
   "technology", "science", "politics", "gaming", "movies",
   "music", "books", "sports", "food", "travel", "history",
   "personalfinance", "investing", "explainlikeimfive", "askscience"].map
    (fun s => s.toList)

/-- The sixteen-name candidate list stated by the specification (§4.7),
written from the spec's words for comparison with `relevant_subreddits`. -/
def spec_subreddit_candidates : List (List Char) :=
  ["all", "AskReddit", "todayilearned", "news", "worldnews",
   "technology", "science", "politics", "gaming", "movies",
   "music", "books", "sports", "food", "travel", "history"].map
    (fun s => s.toList)

/-- `RedditService.search_subreddits` (reddit_service.py lines 29-66).
`probe` models whether reading `subreddit.display_name` succeeds for a name;
`ok` models whether the body completes without an outer exception (the
`except` fallback on lines 64-66).  The word-append loop (lines 45-48) and
the probe loop (lines 50-57) are folds in source order. -/
def search_subreddits (probe : List Char → Bool) (ok : Bool)
    (query : List Char) (limit : Nat) : List (List Char) :=
  if !ok then ["all".toList, "AskReddit".toList]
  else
    let query_words := pySplit (query.map lowerChar)
    let candidates :=
      query_words.foldl (fun acc w => if 3 < w.length then acc ++ [w] else acc)
        relevant_subreddits
    let filtered :=
      candidates.foldl (fun acc s => if probe s then acc ++ [s] else acc) []
    filtered.take limit

/-- Line parser of `AIService.generate_query_variations`
(ai_service.py lines 60-67): split the stripped response text on newlines;
accept a stripped line if it is non-empty and one of its first three
characters is a digit; the variation is the text after the first period
(the whole line when there is none), stripped, skipped if empty. -/
def splitNlAux : List Char → List Char → List (List Char)
  | [], acc => [acc.reverse]
  | c :: rest, acc =>
    if c == '\n' then acc.reverse :: splitNlAux rest [] else splitNlAux rest (c :: acc)

/-- Python `str.split('\n')`: split at every newline, keeping empty pieces. -/
def splitOnNl (l : List Char) : List (List Char) :=
  splitNlAux l []

/-- Python `line.split('.', 1)[-1]`: the text after the first period, or the
whole string when it has no period. -/
def afterFirstDotAux : List Char → Option (List Char)
  | [] => none
  | c :: rest => if c == '.' then some rest else afterFirstDotAux rest

/-- See `afterFirstDotAux`. -/
def afterFirstDot (l : List Char) : List Char :=
  (afterFirstDotAux l).getD l

/-- The variation-parsing loop of `generate_query_variations`
(ai_service.py lines 60-67). -/
def parseVariations (text : List Char) : List (List Char) :=
  (splitOnNl (pyStrip text)).foldl
    (fun acc line0 =>
      let line := pyStrip line0
      if !line.isEmpty && (line.take 3).any Char.isDigit then
        let variation := pyStrip (afterFirstDot line)
        if !variation.isEmpty then acc ++ [variation] else acc
      else acc)
    []

/-- `AIService.generate_query_variations` (ai_service.py lines 25-88).
`available` models `self.is_available()`; `resp` is the stripped text of the
model response, `none` when the generation call raises (the `except` on
lines 85-88). -/
def generate_query_variations (available : Bool) (resp : Option (List Char))
    (original_query : List Char) (num_variations : Nat) : List (List Char) :=
  if !available then [original_query]
  else
    match resp with
    | none => [original_query]
    | some t =>
      let variations := parseVariations t
      if variations.isEmpty then [original_query]
      else variations.take num_variations

/-- The fields of the full search-result document that
`DatabaseService.save_search_result` reads when building its fallback
(database.py lines 122-133), plus an opaque stand-in for the bulky nested
payload. -/
structure SearchDoc where
  batch_id : List Char
  query : List Char
  timestamp : List Char
  total_comments : Int
  unique_comments : Int
  payload : List (List Char)
deriving DecidableEq

/-- The minimal-metadata fallback document (database.py lines 122-133). -/
structure MinimalDoc where
  batch_id : List Char
  query : List Char
  timestamp : List Char
  total_comments : Int
  unique_comments : Int
  error : List Char
  full_data_saved_to_files : Bool
  note : List Char
deriving DecidableEq

/-- `minimal_data` as built from `data` (database.py lines 122-133). -/
def minimalOf (d : SearchDoc) : MinimalDoc :=
  { batch_id := d.batch_id, query := d.query, timestamp := d.timestamp,
    total_comments := d.total_comments, unique_comments := d.unique_comments,
    error := "Data too large for MongoDB".toList,
    full_data_saved_to_files := true,
    note := "Full data available in JSON files due to size constraints".toList }

/-- Outcome of one `collection.insert_one` call: success with an inserted
identifier, a `DocumentTooLarge` failure, or any other exception. -/
inductive InsertOutcome where
  | inserted (id : Nat)
  | documentTooLarge
  | otherError
deriving DecidableEq

/-- Does an `InsertOutcome` carry an inserted identifier? -/
def InsertOutcome.isOk : InsertOutcome → Bool
  | .inserted _ => true
  | _ => false

/-- `DatabaseService.save_search_result` (database.py lines 107-143).
`connectOk` models `self.connect()`; `ins` models `insert_one` on either the
full document or the minimal fallback document. -/
def save_search_result (connectOk : Bool)
    (ins : SearchDoc ⊕ MinimalDoc → InsertOutcome) (data : SearchDoc) :
    Option Nat :=
  if !connectOk then none
  else
    match ins (Sum.inl data) with
    | .inserted i => some i
    | .documentTooLarge =>
      match ins (Sum.inr (minimalOf data)) with
      | .inserted j => some j
      | _ => none
    | .otherError => none

/-- The numeric and per-source fields of the `combined_data` document built
by `UnifiedCommentFetcher.save_unified_data` (comment_fetcher.py lines
389-413).  Randomised fields (batch id, timestamps) and the raw nested
payload lists are carried through unchanged or omitted. -/
structure UnifiedDoc where
  query : List Char
  sources : List (List Char)
  youtube_data : List ContentItem
  reddit_data : List ContentItem
  total_youtube_videos : Nat
  total_reddit_posts : Nat
  total_comments : Int
  total_replies : Int
  grand_total : Int
  unique_comments : Int
  unique_comments_data : List UComment
  duplicates_removed : Int
  youtube_comments : Nat
  reddit_comments : Nat
deriving DecidableEq

/-- The pure document-building part of `save_unified_data`
(comment_fetcher.py lines 386-413), with the argument order of the Python
method. -/
def save_unified_data_doc (query : List Char) (videos_data : List ContentItem)
    (unique_comments : List UComment) (unique_count : Nat)
    (total_replies total_comments : Int) (sources : List (List Char)) :
    UnifiedDoc :=
  let youtube_videos := videos_data.filter (fun v => v.source == some "youtube".toList)
  let reddit_posts := videos_data.filter (fun v => v.source == some "reddit".toList)
  { query := query, sources := sources,
    youtube_data := youtube_videos, reddit_data := reddit_posts,
    total_youtube_videos := youtube_videos.length,
    total_reddit_posts := reddit_posts.length,
    total_comments := total_comments,
    total_replies := total_replies,
    grand_total := total_comments + total_replies,
    unique_comments := (unique_count : Int),
    unique_comments_data := unique_comments,
    duplicates_removed := total_comments - (unique_count : Int),
    youtube_comments := (youtube_videos.map (fun v => v.comments.length)).sum,
    reddit_comments := (reddit_posts.map (fun v => v.comments.length)).sum }

/-- The fields of the aggregation result of
`fetch_multiple_queries_aggregated` that `POST /api/search` reads
(search_routes.py lines 63-67). -/
structure AggResult where
  videos : List ContentItem
  unique_comments : List UComment
  unique_count : Nat
  total_processed_comments : Nat
  total_processed_replies : Nat
  grand_total : Nat
deriving DecidableEq

/-- The `save_unified_data` call of the `POST /api/search` handler
(search_routes.py lines 81-89): the total-comment argument receives the
aggregation's `grand_total` and the sources argument the literal
`['youtube', 'reddit']`. -/
def search_route_save (original_query : List Char) (agg : AggResult) : UnifiedDoc :=
  save_unified_data_doc original_query agg.videos agg.unique_comments
    agg.unique_count (agg.total_processed_replies : Int) (agg.grand_total : Int)
    ["youtube".toList, "reddit".toList]

/-- The retry loop of `fetch_all_comments_parallel` (comment_fetcher.py
lines 43-178).  `attemptYield` gives the comment and reply counts that
attempt number `a` adds (the merged outcome of the two concurrent source
fetches); `fuel` bounds the recursion and is set to more iterations than
the loop guard `attempt ≤ maxRetries` can allow.  Returns
(total comments, total replies, final value of `attempt`, number of
loop-body executions). -/
def fetchLoop (attemptYield : Nat → Nat × Nat) (target maxRetries : Nat) :
    Nat → Nat → Nat → Nat → Nat → Nat × Nat × Nat × Nat
  | 0, attempt, tc, tr, iters => (tc, tr, attempt, iters)
  | fuel + 1, attempt, tc, tr, iters =>
    if tc + tr < target ∧ attempt ≤ maxRetries then
      let y := attemptYield attempt
      let tc2 := tc + y.1
      let tr2 := tr + y.2
      if target ≤ tc2 + tr2 then (tc2, tr2, attempt, iters + 1)
      else fetchLoop attemptYield target maxRetries fuel (attempt + 1) tc2 tr2 (iters + 1)
    else (tc, tr, attempt, iters)

/-- The result dict of `fetch_all_comments_parallel` (comment_fetcher.py
lines 187-196), plus a ghost count of how many times the loop body ran. -/
structure FetchResult where
  total_comments : Nat
  total_replies : Nat
  grand_total : Nat
  target_achieved : Bool
  attempts_made : Nat
  iterations : Nat
deriving DecidableEq

/-- `UnifiedCommentFetcher.fetch_all_comments_parallel` (comment_fetcher.py
lines 27-196), restricted to its counters: `attempt` starts at 1, the break
on line 171 skips the `attempt += 1` on line 178, and the returned
`attempts_made` is `attempt - 1` (line 195). -/
def fetch_all_comments_parallel (attemptYield : Nat → Nat × Nat)
    (min_total_comments max_retries : Nat) : FetchResult :=
  let r := fetchLoop attemptYield min_total_comments max_retries (max_retries + 1) 1 0 0 0
  { total_comments := r.1, total_replies := r.2.1,
    grand_total := r.1 + r.2.1,
    target_achieved := min_total_comments ≤ r.1 + r.2.1,
    attempts_made := r.2.2.1 - 1,
    iterations := r.2.2.2 }

/-- The character set `[a-z0-9_-]` required of sanitized filenames. -/
def charOK (c : Char) : Bool :=
  (97 ≤ c.toNat && c.toNat ≤ 122) || (48 ≤ c.toNat && c.toNat ≤ 57) ||
    c == '_' || c == '-'

/-- No two adjacent underscores. -/
def noDD : List Char → Bool
  | [] => true
  | [_] => true
  | a :: b :: rest => !(a == '_' && b == '_') && noDD (b :: rest)

/-- The relevance match count as the specification's words state it: the
number of query terms occurring as substrings of the lowercased comment
text, plus an extra half point for single-term queries whose term's first
four characters occur.  Written from the spec for comparison with
`filter_comment_relevance` (which also requires the single term to be
longer than three characters before awarding the half point). -/
def spec_match_count (comment_text : List Char)
    (query_terms : List (List Char)) : ℚ :=
  let cl := comment_text.map lowerChar
  ((query_terms.filter (fun t => occursIn t cl)).length : ℚ) +
    (if query_terms.length = 1 ∧ occursIn ((query_terms.headD []).take 4) cl = true
     then 1/2 else 0)

/-- Invariant of the `get_unique_comments_unified` state: keys are pairwise
distinct, every entry's text is its key, keys are at least 3 characters,
the comment counter equals the number of entries, and every stored reply
text is longer than 3 characters. -/
def UInv (st : UniqState) : Prop :=
  (st.assoc.map Prod.fst).Nodup ∧
  (∀ p ∈ st.assoc, (Prod.snd p).text = Prod.fst p) ∧
  (∀ p ∈ st.assoc, 3 ≤ (Prod.fst p).length) ∧
  st.total_comments = st.assoc.length ∧
  (∀ p ∈ st.assoc, ∀ r ∈ (Prod.snd p).replies, 4 ≤ r.text.length)

theorem foldl_pres {α : Type} {β : Type} (P : α → Prop) (f : α → β → α)
    (hf : ∀ a b, P a → P (f a b)) :
    ∀ (l : List β) (a : α), P a → P (l.foldl f a) := by
  intro l
  induction l with
  | nil => intro a ha; simpa using ha
  | cons x xs ih =>
    intro a ha
    simpa using ih (f a x) (hf a x ha)

theorem foldl_mem_pres {α : Type} {β : Type} (P : β → Prop) (f : List β → α → List β)
    (hf : ∀ acc x, (∀ v ∈ acc, P v) → ∀ v ∈ f acc x, P v) :
    ∀ (l : List α) (acc : List β), (∀ v ∈ acc, P v) →
      ∀ v ∈ l.foldl f acc, P v :=
  foldl_pres (fun acc => ∀ v ∈ acc, P v) f hf

/-- C3 (code bug in `fetch_all_comments_parallel`): when the target is
reached on the very first attempt the loop body has executed once, yet the
returned `attempts_made` is 0 — the `break` on line 171 of
comment_fetcher.py skips the `attempt += 1` on line 178, so the
target-reached exit reports one fewer attempt than was actually made. -/
theorem fetch_attempts_made_off_by_one :
    (fetch_all_comments_parallel (fun _ => (5, 0)) 5 3).iterations = 1 ∧
    (fetch_all_comments_parallel (fun _ => (5, 0)) 5 3).target_achieved = true ∧
    (fetch_all_comments_parallel (fun _ => (5, 0)) 5 3).attempts_made = 0 ∧
    (fetch_all_comments_parallel (fun _ => (1, 0)) 5 3).iterations = 3 ∧
    (fetch_all_comments_parallel (fun _ => (1, 0)) 5 3).attempts_made = 3 := by
  decide

/-- C9: `save_search_result` falls back to a minimal-metadata insert exactly
on a `DocumentTooLarge` primary failure, the minimal document carries the
batch id, query, timestamp, the total and unique counts and an explanatory
error flag, and the call returns `none` only when the connection fails,
when a non-size insert error occurs, or when even the fallback insert
fails. -/
theorem save_search_result_spec :
    ∀ (connectOk : Bool) (ins : SearchDoc ⊕ MinimalDoc → InsertOutcome) (d : SearchDoc),
      (∀ i : Nat, connectOk = true → ins (Sum.inl d) = .documentTooLarge →
        ins (Sum.inr (minimalOf d)) = .inserted i →
        save_search_result connectOk ins d = some i) ∧
      ((minimalOf d).batch_id = d.batch_id ∧ (minimalOf d).query = d.query ∧
        (minimalOf d).timestamp = d.timestamp ∧
        (minimalOf d).total_comments = d.total_comments ∧
        (minimalOf d).unique_comments = d.unique_comments ∧
        (minimalOf d).error = "Data too large for MongoDB".toList) ∧
      (save_search_result connectOk ins d = none ↔
        (connectOk = false ∨ ins (Sum.inl d) = .otherError ∨
          (ins (Sum.inl d) = .documentTooLarge ∧
            (ins (Sum.inr (minimalOf d))).isOk = false))) := by
  intro connectOk ins d
  refine ⟨?_, ⟨rfl, rfl, rfl, rfl, rfl, rfl⟩, ?_⟩
  · intro i hc h1 h2
    simp [save_search_result, hc, h1, h2]
  · cases connectOk with
    | false => simp [save_search_result]
    | true =>
      cases h1 : ins (Sum.inl d) with
      | inserted i => simp [save_search_result, h1]
      | otherError => simp [save_search_result, h1]
      | documentTooLarge =>
        cases h2 : ins (Sum.inr (minimalOf d)) with
        | inserted j => simp [save_search_result, h1, h2, InsertOutcome.isOk]
        | documentTooLarge => simp [save_search_result, h1, h2, InsertOutcome.isOk]
        | otherError => simp [save_search_result, h1, h2, InsertOutcome.isOk]

theorem save_search_result_spec_witness :
    save_search_result true
      (fun x => match x with
        | Sum.inl _ => InsertOutcome.documentTooLarge
        | Sum.inr _ => InsertOutcome.inserted 7)
      { batch_id := "b1".toList, query := "q".toList, timestamp := "t".toList,
        total_comments := 12, unique_comments := 5, payload := [] } = some 7 :=
  (save_search_result_spec true _ _).1 7 rfl rfl rfl

/-- C10: the `/api/search` handler passes the aggregation's grand total
(processed comments plus processed replies) as the total-comment argument
of `save_unified_data`, so the persisted document's `total_comments` field
is comments + replies, its `grand_total` field is comments + 2·replies,
and its `duplicates_removed` field is (comments + replies) − unique count. -/
theorem search_route_save_totals :
    ∀ (q : List Char) (agg : AggResult),
      agg.grand_total = agg.total_processed_comments + agg.total_processed_replies →
      (search_route_save q agg).total_comments
          = (agg.total_processed_comments : Int) + (agg.total_processed_replies : Int) ∧
      (search_route_save q agg).grand_total
          = (agg.total_processed_comments : Int) + 2 * (agg.total_processed_replies : Int) ∧
      (search_route_save q agg).duplicates_removed
          = ((agg.total_processed_comments : Int) + (agg.total_processed_replies : Int))
              - (agg.unique_count : Int) := by
  intro q agg h
  refine ⟨?_, ?_, ?_⟩
  · simp [search_route_save, save_unified_data_doc, h]
  · simp [search_route_save, save_unified_data_doc, h]
    ring
  · simp [search_route_save, save_unified_data_doc, h]

theorem search_route_save_totals_witness :
    (search_route_save []
        { videos := [], unique_comments := [], unique_count := 3,
          total_processed_comments := 10, total_processed_replies := 4,
          grand_total := 14 }).total_comments = 14 ∧
    (search_route_save []
        { videos := [], unique_comments := [], unique_count := 3,
          total_processed_comments := 10, total_processed_replies := 4,
          grand_total := 14 }).grand_total = 18 ∧
    (search_route_save []
        { videos := [], unique_comments := [], unique_count := 3,
          total_processed_comments := 10, total_processed_replies := 4,
          grand_total := 14 }).duplicates_removed = 11 := by
  have h := search_route_save_totals []
    { videos := [], unique_comments := [], unique_count := 3,
      total_processed_comments := 10, total_processed_replies := 4,
      grand_total := 14 } (by decide)
  refine ⟨?_, ?_, ?_⟩
  · rw [h.1]; norm_num
  · rw [h.2.1]; norm_num
  · rw [h.2.2]; norm_num

theorem eq_nil_of_isEmpty_true {l : List Char} (h : l.isEmpty = true) : l = [] := by
  cases l with
  | nil => rfl
  | cons a t => simp at h

theorem ne_nil_of_isEmpty_false {l : List Char} (h : l.isEmpty = false) : l ≠ [] := by
  cases l with
  | nil => simp at h
  | cons a t => simp

theorem isEmpty_false_of_pos_len {l : List Char} (h : 0 < l.length) : l.isEmpty = false := by
  cases l with
  | nil => simp at h
  | cons a t => rfl

theorem src_isEmpty_false_of_strip {q : List Char}
    (h : (pyStrip q).isEmpty = false) : q.isEmpty = false := by
  cases q with
  | nil => simp [pyStrip] at h
  | cons a t => rfl

set_option maxRecDepth 40000 in
/-- C6: `validate_query` returns exactly the documented verdict and message
for each branch: blank input, trimmed length below 2, trimmed length above
500 (a 500-character query is valid, a 501-character one is not), a
forbidden character among `< > " ' &`, and the valid case. -/
theorem validate_query_spec :
    (∀ q : List Char,
      ((pyStrip q).isEmpty = true →
        validate_query q = (false, "Query cannot be empty")) ∧
      ((pyStrip q).isEmpty = false → (pyStrip q).length < 2 →
        validate_query q = (false, "Query must be at least 2 characters long")) ∧
      (500 < (pyStrip q).length →
        validate_query q = (false, "Query must be less than 500 characters")) ∧
      (2 ≤ (pyStrip q).length → (pyStrip q).length ≤ 500 →
        (pyStrip q).any (fun c => c == '<' || c == '>' || c == '"' || c == '\'' || c == '&') = true →
        validate_query q = (false, "Query contains invalid characters")) ∧
      (2 ≤ (pyStrip q).length → (pyStrip q).length ≤ 500 →
        (pyStrip q).any (fun c => c == '<' || c == '>' || c == '"' || c == '\'' || c == '&') = false →
        validate_query q = (true, "Query is valid"))) ∧
    validate_query (List.replicate 500 'a') = (true, "Query is valid") ∧
    validate_query (List.replicate 501 'a') = (false, "Query must be less than 500 characters") := by
  refine ⟨?_, by decide, by decide⟩
  intro q
  refine ⟨?_, ?_, ?_, ?_, ?_⟩
  · intro h0
    simp [validate_query, h0]
  · intro hne hlt
    have hqe := src_isEmpty_false_of_strip hne
    simp [validate_query, hqe, hne, hlt]
  · intro h5
    have hne : (pyStrip q).isEmpty = false := isEmpty_false_of_pos_len (by omega)
    have hqe := src_isEmpty_false_of_strip hne
    have h2 : ¬ (pyStrip q).length < 2 := by omega
    simp [validate_query, hqe, hne, h2, h5]
  · intro h2 h500 hany
    have hne : (pyStrip q).isEmpty = false := isEmpty_false_of_pos_len (by omega)
    have hqe := src_isEmpty_false_of_strip hne
    have hlt : ¬ (pyStrip q).length < 2 := by omega
    have hgt : ¬ 500 < (pyStrip q).length := by omega
    simp [validate_query, hqe, hne, hlt, hgt, hany]
  · intro h2 h500 hany
    have hne : (pyStrip q).isEmpty = false := isEmpty_false_of_pos_len (by omega)
    have hqe := src_isEmpty_false_of_strip hne
    have hlt : ¬ (pyStrip q).length < 2 := by omega
    have hgt : ¬ 500 < (pyStrip q).length := by omega
    simp [validate_query, hqe, hne, hlt, hgt, hany]

theorem validate_query_spec_witness :
    validate_query "hello world".toList = (true, "Query is valid") ∧
    validate_query "<script>".toList = (false, "Query contains invalid characters") :=
  ⟨(validate_query_spec.1 "hello world".toList).2.2.2.2 (by decide) (by decide) (by decide),
   (validate_query_spec.1 "<script>".toList).2.2.2.1 (by decide) (by decide) (by decide)⟩

/-- C8: `generate_query_variations` returns exactly `[query]` when the AI
backend is unavailable, when the generation call raises, or when zero
variations parse; otherwise it returns the first `n` parsed variations.
Under `1 ≤ n` the result is never empty and never longer than `n`, and
every parsed variation is a non-empty string. -/
theorem generate_query_variations_spec :
    ∀ (available : Bool) (resp : Option (List Char)) (q : List Char) (n : Nat),
      1 ≤ n →
      (available = false → generate_query_variations available resp q n = [q]) ∧
      (resp = none → generate_query_variations available resp q n = [q]) ∧
      (∀ t, resp = some t → parseVariations t = [] →
        generate_query_variations available resp q n = [q]) ∧
      (∀ t, resp = some t → available = true → parseVariations t ≠ [] →
        generate_query_variations available resp q n = (parseVariations t).take n) ∧
      generate_query_variations available resp q n ≠ [] ∧
      (generate_query_variations available resp q n).length ≤ n ∧
      (∀ t v, v ∈ parseVariations t → v ≠ []) := by
  intro available resp q n hn
  have hparse : ∀ t v, v ∈ parseVariations t → v ≠ [] := by
    intro t
    unfold parseVariations
    refine foldl_mem_pres (fun v => v ≠ []) _ ?_ _ [] (by simp)
    intro acc x hacc v hv
    dsimp only at hv
    split at hv
    · split at hv
      · rcases List.mem_append.mp hv with h | h
        · exact hacc v h
        · rename_i hcond hne
          have hv' : v = pyStrip (afterFirstDot (pyStrip x)) := by simpa using h
          subst hv'
          exact ne_nil_of_isEmpty_false (by simpa using hne)
      · exact hacc v hv
    · exact hacc v hv
  cases available with
  | false =>
    refine ⟨fun _ => rfl, fun _ => rfl, fun t _ _ => rfl, ?_, by simp [generate_query_variations], ?_, hparse⟩
    · intro t _ hav
      exact absurd hav (by simp)
    · simpa [generate_query_variations] using hn
  | true =>
    cases resp with
    | none =>
      refine ⟨(fun h => by cases h), fun _ => rfl, (fun t ht _ => by cases ht), ?_,
        by simp [generate_query_variations], ?_, hparse⟩
      · intro t ht
        cases ht
      · simpa [generate_query_variations] using hn
    | some t0 =>
      by_cases hp : parseVariations t0 = []
      · refine ⟨(fun h => by cases h), (fun h => by cases h), ?_, ?_, ?_, ?_, hparse⟩
        · intro t ht _
          simp [generate_query_variations, hp, List.isEmpty_iff]
        · intro t ht _ hne
          injection ht with ht'
          subst ht'
          exact absurd hp hne
        · simp [generate_query_variations, hp, List.isEmpty_iff]
        · simpa [generate_query_variations, hp, List.isEmpty_iff] using hn
      · have hres : generate_query_variations true (some t0) q n = (parseVariations t0).take n := by
          simp [generate_query_variations, List.isEmpty_iff, hp]
        refine ⟨(fun h => by cases h), (fun h => by cases h), ?_, ?_, ?_, ?_, hparse⟩
        · intro t ht hpt
          injection ht with ht'
          subst ht'
          exact absurd hpt hp
        · intro t ht _ _
          injection ht with ht'
          subst ht'
          exact hres
        · rw [hres]
          simp only [ne_eq, List.take_eq_nil_iff]
          rintro (h | h)
          · omega
          · exact hp h
        · rw [hres]
          simp [List.length_take]

theorem generate_query_variations_spec_witness :
    generate_query_variations true (some "1. alpha\n2. beta\n3. gamma".toList)
        "q".toList 2 ≠ [] ∧
    (generate_query_variations true (some "1. alpha\n2. beta\n3. gamma".toList)
        "q".toList 2).length ≤ 2 :=
  ⟨(generate_query_variations_spec true (some "1. alpha\n2. beta\n3. gamma".toList)
      "q".toList 2 (by decide)).2.2.2.2.1,
   (generate_query_variations_spec true (some "1. alpha\n2. beta\n3. gamma".toList)
      "q".toList 2 (by decide)).2.2.2.2.2.1⟩

/-- C5: `filter_comment_relevance` judges a comment relevant exactly when
either there is more than one query term and the spec's match count reaches
`max(1, termCount / 2)`, or there is exactly one query term and the spec's
match count is positive.  (The code awards the single-term half point only
for terms longer than three characters, but for a term of at most three
characters the term's first four characters are the whole term, so the
verdict is unchanged.) -/
theorem filter_comment_relevance_spec :
    ∀ (c : List Char) (ts : List (List Char)),
      filter_comment_relevance c ts = true ↔
        ((1 < ts.length ∧
            (((max 1 (ts.length / 2)) : Nat) : ℚ) ≤ spec_match_count c ts) ∨
         (ts.length = 1 ∧ 0 < spec_match_count c ts)) := by
  intro c ts
  match ts with
  | [] =>
    simp [filter_comment_relevance, spec_match_count]
  | [t] =>
    by_cases h4 : 3 < t.length
    · simp only [filter_comment_relevance, spec_match_count, List.length_singleton,
        List.headD_cons, h4, decide_eq_true_eq]
      by_cases hocc : occursIn (t.take 4) (c.map lowerChar) = true
      · simp [hocc]
      · simp [hocc]
    · have htake : t.take 4 = t := List.take_of_length_le (by omega)
      simp only [filter_comment_relevance, spec_match_count, List.length_singleton,
        List.headD_cons, h4, htake, decide_eq_true_eq]
      by_cases hocc : occursIn t (c.map lowerChar) = true
      · simp [hocc]
        norm_num
      · simp [hocc]
  | a :: b :: l =>
    have hlen : (a :: b :: l).length = l.length + 2 := by simp
    simp only [filter_comment_relevance, spec_match_count, hlen, decide_eq_true_eq]
    have h1 : ¬ (l.length + 2 = 1) := by omega
    have h2 : 1 < l.length + 2 := by omega
    simp [h1, h2]

theorem foldl_append_filter {α : Type} (p : α → Bool) :
    ∀ (l acc : List α),
      l.foldl (fun acc w => if p w then acc ++ [w] else acc) acc = acc ++ l.filter p := by
  intro l
  induction l with
  | nil => intro acc; simp
  | cons x xs ih =>
    intro acc
    by_cases hx : p x = true
    · simp [List.foldl_cons, hx, ih, List.filter_cons]
    · simp only [Bool.not_eq_true] at hx
      simp [List.foldl_cons, hx, ih, List.filter_cons]

/-- C4 (amended): `search_subreddits` starts from the fixed candidate list
of the twenty forum names in `relevant_subreddits` (the sixteen the spec
lists plus personalfinance, investing, explainlikeimfive and askscience),
appends the query's words longer than 3 characters, keeps the candidates
whose existence probe succeeds, returns at most `limit` surviving names,
and on a total failure returns `["all", "AskReddit"]`. -/
theorem search_subreddits_amended :
    ∀ (probe : List Char → Bool) (ok : Bool) (q : List Char) (limit : Nat),
      (ok = false →
        search_subreddits probe ok q limit = ["all".toList, "AskReddit".toList]) ∧
      (ok = true →
        search_subreddits probe ok q limit =
          ((relevant_subreddits ++
              (pySplit (q.map lowerChar)).filter (fun w => 3 < w.length)).filter
            probe).take limit) ∧
      (ok = true → (search_subreddits probe ok q limit).length ≤ limit) ∧
      (ok = true → ∀ s ∈ search_subreddits probe ok q limit,
        probe s = true ∧ (s ∈ relevant_subreddits ∨ s ∈ pySplit (q.map lowerChar))) := by
  intro probe ok q limit
  have heq : ok = true →
      search_subreddits probe ok q limit =
        ((relevant_subreddits ++
            (pySplit (q.map lowerChar)).filter (fun w => 3 < w.length)).filter
          probe).take limit := by
    intro h
    subst h
    show (((pySplit (q.map lowerChar)).foldl
        (fun acc w => if 3 < w.length then acc ++ [w] else acc)
        relevant_subreddits).foldl
          (fun acc s => if probe s then acc ++ [s] else acc) []).take limit = _
    rw [show (fun (acc : List (List Char)) (w : List Char) =>
          if 3 < w.length then acc ++ [w] else acc)
        = (fun acc w => if decide (3 < w.length) = true then acc ++ [w] else acc) by
      funext acc w
      by_cases h3 : 3 < w.length
      · simp [h3]
      · simp [h3]]
    rw [foldl_append_filter (fun (w : List Char) => decide (3 < w.length)),
      foldl_append_filter probe]
    simp
  refine ⟨?_, heq, ?_, ?_⟩
  · intro h
    subst h
    rfl
  · intro h
    rw [heq h]
    simp [List.length_take]
  · intro h s hs
    rw [heq h] at hs
    have hs2 := List.take_subset _ _ hs
    have hs3 := List.mem_filter.mp hs2
    refine ⟨hs3.2, ?_⟩
    rcases List.mem_append.mp hs3.1 with h1 | h1
    · exact Or.inl h1
    · exact Or.inr (List.mem_filter.mp h1).1

theorem search_subreddits_amended_witness :
    (search_subreddits (fun _ => true) true "hi".toList 3).length ≤ 3 :=
  (search_subreddits_amended (fun _ => true) true "hi".toList 3).2.2.1 rfl

/-- C4 (counterexample): with every existence probe succeeding and no outer
failure, the query "hi" (no word longer than 3 characters) yields a result
containing "personalfinance", a name that is neither among the sixteen
candidates the claim lists nor a query word — so the candidate pool is not
the claimed sixteen-name list. -/
theorem search_subreddits_sixteen_counterexample :
    "personalfinance".toList ∈ search_subreddits (fun _ => true) true "hi".toList 20 ∧
    "personalfinance".toList ∉ spec_subreddit_candidates ∧
    (∀ w ∈ pySplit ("hi".toList.map lowerChar), w ≠ "personalfinance".toList) := by
  decide

theorem updateA_map_fst (k : List Char) (f : UComment → UComment) :
    ∀ l, (updateA k f l).map Prod.fst = l.map Prod.fst := by
  intro l
  induction l with
  | nil => rfl
  | cons p rest ih =>
    by_cases h : (p.1 == k) = true
    · simp [updateA, h]
    · simp only [Bool.not_eq_true] at h
      simp [updateA, h, ih]

theorem updateA_length (k : List Char) (f : UComment → UComment) (l : List (List Char × UComment)) :
    (updateA k f l).length = l.length := by
  have h := congrArg List.length (updateA_map_fst k f l)
  simpa using h

theorem updateA_pres (k : List Char) (f : UComment → UComment)
    (P : List Char × UComment → Prop)
    (hf : ∀ a b, P (a, b) → P (a, f b)) :
    ∀ l, (∀ p ∈ l, P p) → ∀ p ∈ updateA k f l, P p := by
  intro l
  induction l with
  | nil =>
    intro h p hp
    simp [updateA] at hp
  | cons x rest ih =>
    intro h p hp
    rcases x with ⟨a, b⟩
    by_cases hx : ((a, b).1 == k) = true
    · rw [updateA, if_pos hx] at hp
      rcases List.mem_cons.mp hp with h1 | h1
      · subst h1
        exact hf a b (h (a, b) (List.mem_cons_self _ _))
      · exact h p (List.mem_cons_of_mem _ h1)
    · rw [updateA, if_neg hx] at hp
      rcases List.mem_cons.mp hp with h1 | h1
      · subst h1
        exact h (a, b) (List.mem_cons_self _ _)
      · exact ih (fun p hp' => h p (List.mem_cons_of_mem _ hp')) p h1

theorem uInv_update (t : List Char) (rep : UReply) (hrep : 4 ≤ rep.text.length)
    (st : UniqState) (n : Nat) (h : UInv st) :
    UInv { assoc :=
             updateA t (fun e => { e with replies := e.replies ++ [rep] }) st.assoc,
           total_comments := st.total_comments, total_replies := n } := by
  obtain ⟨h1, h2, h3, h4, h5⟩ := h
  refine ⟨?_, ?_, ?_, ?_, ?_⟩
  · simpa [updateA_map_fst] using h1
  · exact updateA_pres t (fun e => { e with replies := e.replies ++ [rep] })
      (fun p => (Prod.snd p).text = Prod.fst p) (fun a b hb => hb) st.assoc h2
  · exact updateA_pres t (fun e => { e with replies := e.replies ++ [rep] })
      (fun p => 3 ≤ (Prod.fst p).length) (fun a b hb => hb) st.assoc h3
  · simpa [updateA_length] using h4
  · refine updateA_pres t (fun e => { e with replies := e.replies ++ [rep] })
      (fun p => ∀ r ∈ (Prod.snd p).replies, 4 ≤ r.text.length) ?_ st.assoc h5
    intro a b hb r hr
    rcases List.mem_append.mp hr with hr1 | hr1
    · exact hb r hr1
    · have : r = rep := by simpa using hr1
      subst this
      exact hrep

theorem uInv_replyStep (t src : List Char) (existing : List (List Char))
    (st : UniqState) (r : RawReply) (h : UInv st) :
    UInv (replyStep t src existing st r) := by
  simp only [replyStep]
  split
  · rename_i hcond
    simp only [Bool.and_eq_true, Bool.not_eq_true', decide_eq_true_eq] at hcond
    exact uInv_update t _
      (by
        show (4 : Nat) ≤ (pyStrip r.text).length
        omega) st _ h
  · exact h

theorem uInv_stepComment (src title subr : List Char) (st : UniqState)
    (c : RawComment) (h : UInv st) : UInv (stepComment src title subr st c) := by
  simp only [stepComment]
  split
  · exact h
  · rename_i hskip
    have hlen3 : 3 ≤ (pyStrip c.text).length := by
      simp only [Bool.or_eq_true, decide_eq_true_eq, not_or] at hskip
      omega
    have hst1 : UInv (if keyMem (pyStrip c.text) st.assoc then st
        else { st with
               assoc := st.assoc ++
                 [(pyStrip c.text,
                   { author := c.author, text := pyStrip c.text, likes := c.likes.getD 0,
                     published_at := c.published_at,
                     author_profile := c.author_profile.getD [],
                     source := src, video_title := title, subreddit := subr,
                     replies := [] })],
               total_comments := st.total_comments + 1 }) := by
      by_cases hk : keyMem (pyStrip c.text) st.assoc = true
      · rw [if_pos hk]
        exact h
      · rw [Bool.not_eq_true] at hk
        rw [if_neg (by simp [hk])]
        obtain ⟨h1, h2, h3, h4, h5⟩ := h
        have hnot : pyStrip c.text ∉ st.assoc.map Prod.fst := by
          intro hmem
          rcases List.mem_map.mp hmem with ⟨p, hp, hpe⟩
          have : (p.1 == pyStrip c.text) = true := by simp [hpe]
          have hany : keyMem (pyStrip c.text) st.assoc = true :=
            List.any_eq_true.mpr ⟨p, hp, this⟩
          rw [hk] at hany
          cases hany
        refine ⟨?_, ?_, ?_, ?_, ?_⟩
        · rw [List.map_append, List.nodup_append]
          refine ⟨h1, by simp, ?_⟩
          intro a ha hb
          have : a = pyStrip c.text := by simpa using hb
          subst this
          exact hnot ha
        · intro p hp
          rcases List.mem_append.mp hp with h' | h'
          · exact h2 p h'
          · have hpx := List.mem_singleton.mp h'
            subst hpx
            rfl
        · intro p hp
          rcases List.mem_append.mp hp with h' | h'
          · exact h3 p h'
          · have hpx := List.mem_singleton.mp h'
            subst hpx
            exact hlen3
        · simp [h4]
        · intro p hp r hr
          rcases List.mem_append.mp hp with h' | h'
          · exact h5 p h' r hr
          · have hpx := List.mem_singleton.mp h'
            rw [hpx] at hr
            simp at hr
    exact foldl_pres UInv _
      (fun a b hab => uInv_replyStep (pyStrip c.text) src _ a b hab)
      c.replies _ hst1

theorem uInv_stepItem (st : UniqState) (v : ContentItem) (h : UInv st) :
    UInv (stepItem st v) :=
  foldl_pres UInv _ (fun a b hab => uInv_stepComment _ _ _ a b hab) v.comments st h

theorem uInv_final (videos : List ContentItem) :
    UInv (videos.foldl stepItem ⟨[], 0, 0⟩) :=
  foldl_pres UInv stepItem (fun a b hab => uInv_stepItem a b hab) videos _
    ⟨by simp, by simp, by simp, rfl, by simp⟩

/-- C2: every comment whose trimmed text is shorter than 3 characters is
discarded entirely (never inserted, never counted: the returned comment
count equals the number of unique entries, and every entry's text has at
least 3 characters), every stored reply text is strictly longer than 3
characters, the 2-character comment "no" is excluded while the 3-character
comment "wow" is retained, and an exactly-3-character reply is excluded. -/
theorem get_unique_comments_length_filter :
    (∀ videos : List ContentItem,
      (get_unique_comments_unified videos).2.1
          = (get_unique_comments_unified videos).1.length ∧
      (∀ e ∈ (get_unique_comments_unified videos).1, 3 ≤ e.text.length) ∧
      (∀ e ∈ (get_unique_comments_unified videos).1,
        ∀ r ∈ e.replies, 4 ≤ r.text.length)) ∧
    get_unique_comments_unified
      [{ source := some "youtube".toList, video_info := some ⟨"T".toList⟩,
         post_info := none,
         comments := [{ author := "a".toList, text := "no".toList, likes := none,
                        published_at := "t".toList, author_profile := none,
                        replies := [] }] }] = ([], 0, 0) ∧
    (get_unique_comments_unified
      [{ source := some "youtube".toList, video_info := some ⟨"T".toList⟩,
         post_info := none,
         comments := [{ author := "a".toList, text := "wow".toList, likes := none,
                        published_at := "t".toList, author_profile := none,
                        replies := [] }] }]).2.1 = 1 ∧
    (get_unique_comments_unified
      [{ source := some "youtube".toList, video_info := some ⟨"T".toList⟩,
         post_info := none,
         comments := [{ author := "a".toList, text := "hello there".toList, likes := none,
                        published_at := "t".toList, author_profile := none,
                        replies := [{ author := "b".toList, text := "wow".toList,
                                      likes := none, published_at := "t".toList,
                                      author_profile := none }] }] }]).1.map
      (fun e => e.replies.length) = [0] := by
  refine ⟨?_, by decide, by decide, by decide⟩
  intro videos
  obtain ⟨h1, h2, h3, h4, h5⟩ := uInv_final videos
  refine ⟨?_, ?_, ?_⟩
  · simp only [get_unique_comments_unified, List.length_map]
    exact h4
  · intro e he
    simp only [get_unique_comments_unified] at he
    rcases List.mem_map.mp he with ⟨p, hp, hpe⟩
    subst hpe
    rw [h2 p hp]
    exact h3 p hp
  · intro e he
    simp only [get_unique_comments_unified] at he
    rcases List.mem_map.mp he with ⟨p, hp, hpe⟩
    subst hpe
    exact h5 p hp

/-- C1 (amended): no two unique-comment entries share identical trimmed
text, the deduplication key is the exact trimmed string — whitespace-trim
only (texts "Great video" and "Great video " collapse into one entry
keeping the first occurrence's author) and case-sensitive ("Great video"
and "great video" stay two entries) — and a reply equal to one already
stored under the entry before its comment's reply walk begins is skipped;
however duplicate replies arriving within a single comment's reply list
are all kept, because the code checks against a snapshot of the reply
texts taken before the loop (comment_fetcher.py line 357). -/
theorem unique_comments_dedup_amended :
    (∀ videos : List ContentItem,
      ((get_unique_comments_unified videos).1.map (fun e => e.text)).Nodup) ∧
    (get_unique_comments_unified
      [{ source := some "youtube".toList, video_info := some ⟨"T".toList⟩,
         post_info := none,
         comments := [{ author := "alice".toList, text := "Great video".toList,
                        likes := none, published_at := "t1".toList,
                        author_profile := none, replies := [] },
                      { author := "bob".toList, text := "Great video ".toList,
                        likes := none, published_at := "t2".toList,
                        author_profile := none, replies := [] }] }]).1.map
      (fun e => (e.text, e.author)) = [("Great video".toList, "alice".toList)] ∧
    (get_unique_comments_unified
      [{ source := some "youtube".toList, video_info := some ⟨"T".toList⟩,
         post_info := none,
         comments := [{ author := "alice".toList, text := "Great video".toList,
                        likes := none, published_at := "t1".toList,
                        author_profile := none, replies := [] },
                      { author := "bob".toList, text := "great video".toList,
                        likes := none, published_at := "t2".toList,
                        author_profile := none, replies := [] }] }]).2.1 = 2 ∧
    (get_unique_comments_unified
      [{ source := some "youtube".toList, video_info := some ⟨"T".toList⟩,
         post_info := none,
         comments := [{ author := "a1".toList, text := "hello there".toList,
                        likes := none, published_at := "t1".toList,
                        author_profile := none,
                        replies := [{ author := "b1".toList, text := "good stuff".toList,
                                      likes := none, published_at := "t1".toList,
                                      author_profile := none }] },
                      { author := "a2".toList, text := "hello there".toList,
                        likes := none, published_at := "t2".toList,
                        author_profile := none,
                        replies := [{ author := "b2".toList, text := "good stuff".toList,
                                      likes := none, published_at := "t2".toList,
                                      author_profile := none }] }] }]).1.map
      (fun e => e.replies.length) = [1] := by
  refine ⟨?_, by decide, by decide, by decide⟩
  intro videos
  obtain ⟨h1, h2, h3, h4, h5⟩ := uInv_final videos
  simp only [get_unique_comments_unified, List.map_map]
  have hcongr :
      (videos.foldl stepItem ⟨[], 0, 0⟩).assoc.map ((fun e => e.text) ∘ Prod.snd)
        = (videos.foldl stepItem ⟨[], 0, 0⟩).assoc.map Prod.fst :=
    List.map_congr_left (fun p hp => h2 p hp)
  rw [hcongr]
  exact h1

/-- C1 is false as stated: a single comment carrying two replies with the
same trimmed text yields a unique-comment entry whose reply list contains
that text twice, because the dedup check consults only the snapshot of
reply texts taken before the comment's reply loop. -/
theorem unique_comments_duplicate_reply_counterexample :
    ∃ e ∈ (get_unique_comments_unified
      [{ source := some "youtube".toList, video_info := some ⟨"T".toList⟩,
         post_info := none,
         comments := [{ author := "a".toList, text := "hello there".toList,
                        likes := none, published_at := "t".toList,
                        author_profile := none,
                        replies := [{ author := "b".toList, text := "good one!".toList,
                                      likes := none, published_at := "t".toList,
                                      author_profile := none },
                                    { author := "c".toList, text := "good one!".toList,
                                      likes := none, published_at := "t".toList,
                                      author_profile := none }] }] }]).1,
      ¬ (e.replies.map (fun r => r.text)).Nodup := by
  decide

theorem char_toNat_inj {c d : Char} (h : c.toNat = d.toNat) : c = d := by
  apply Char.ext
  unfold Char.toNat at h
  exact UInt32.toNat.inj h

theorem ofNat_toNat_small {n : Nat} (h : n < 55296) : (Char.ofNat n).toNat = n := by
  have hv : Nat.isValidChar n := Or.inl h
  simp [Char.ofNat, hv, Char.ofNatAux, Char.toNat, UInt32.toNat, BitVec.toNat_ofNatLt]

theorem lowerChar_toNat (c : Char) :
    (lowerChar c).toNat = if 65 ≤ c.toNat ∧ c.toNat ≤ 90 then c.toNat + 32 else c.toNat := by
  unfold lowerChar
  by_cases h : 65 ≤ c.toNat ∧ c.toNat ≤ 90
  · rw [if_pos (by simp [h.1, h.2]), if_pos h]
    have h90 := h.2
    exact ofNat_toNat_small (by omega)
  · rw [if_neg (by simpa using h), if_neg h]

theorem char_eq_iff_toNat {c d : Char} : c = d ↔ c.toNat = d.toNat :=
  ⟨fun h => by subst h; rfl, char_toNat_inj⟩

theorem charOK_iff {c : Char} :
    charOK c = true ↔
      (97 ≤ c.toNat ∧ c.toNat ≤ 122) ∨ (48 ≤ c.toNat ∧ c.toNat ≤ 57) ∨
        c.toNat = 95 ∨ c.toNat = 45 := by
  have h95 : ('_' : Char).toNat = 95 := rfl
  have h45 : ('-' : Char).toNat = 45 := rfl
  simp only [charOK, Bool.or_eq_true, Bool.and_eq_true, decide_eq_true_eq, beq_iff_eq,
    char_eq_iff_toNat, h95, h45]
  tauto

theorem isAlnumAscii_iff {c : Char} :
    isAlnumAscii c = true ↔
      (65 ≤ c.toNat ∧ c.toNat ≤ 90) ∨ (97 ≤ c.toNat ∧ c.toNat ≤ 122) ∨
        (48 ≤ c.toNat ∧ c.toNat ≤ 57) := by
  simp only [isAlnumAscii, Bool.or_eq_true, Bool.and_eq_true, decide_eq_true_eq]
  tauto

theorem isPySpace_iff {c : Char} :
    isPySpace c = true ↔
      c.toNat = 32 ∨ c.toNat = 9 ∨ c.toNat = 10 ∨ c.toNat = 13 ∨
        c.toNat = 11 ∨ c.toNat = 12 := by
  have h1 : (' ' : Char).toNat = 32 := rfl
  have h2 : ('\t' : Char).toNat = 9 := rfl
  have h3 : ('\n' : Char).toNat = 10 := rfl
  have h4 : ('\r' : Char).toNat = 13 := rfl
  have h5 : ('\x0b' : Char).toNat = 11 := rfl
  have h6 : ('\x0c' : Char).toNat = 12 := rfl
  simp only [isPySpace, Bool.or_eq_true, beq_iff_eq, char_eq_iff_toNat, h1, h2, h3, h4, h5, h6]
  tauto

theorem lowerChar_fix {c : Char} (h : charOK c = true) : lowerChar c = c := by
  apply char_toNat_inj
  rw [lowerChar_toNat]
  rcases charOK_iff.mp h with h' | h' | h' | h' <;>
    rw [if_neg (by omega)]

theorem charOK_of_kept {c : Char} (h : (isAlnumAscii c || c == '_' || c == '-') = true) :
    charOK (lowerChar c) = true := by
  rw [charOK_iff, lowerChar_toNat]
  simp only [Bool.or_eq_true, beq_iff_eq, char_eq_iff_toNat] at h
  have h95 : ('_' : Char).toNat = 95 := rfl
  have h45 : ('-' : Char).toNat = 45 := rfl
  rcases h with h' | h'
  rcases h' with h' | h'
  · rcases isAlnumAscii_iff.mp h' with h'' | h'' | h''
    · rw [if_pos h'']
      omega
    · rw [if_neg (by omega)]
      omega
    · rw [if_neg (by omega)]
      omega
  · rw [h95] at h'
    rw [if_neg (by omega)]
    omega
  · rw [h45] at h'
    rw [if_neg (by omega)]
    omega

theorem lowerChar_underscore_iff {c : Char} : lowerChar c = '_' ↔ c = '_' := by
  rw [char_eq_iff_toNat, char_eq_iff_toNat, lowerChar_toNat]
  have h95 : ('_' : Char).toNat = 95 := rfl
  rw [h95]
  by_cases h : 65 ≤ c.toNat ∧ c.toNat ≤ 90
  · rw [if_pos h]
    omega
  · rw [if_neg h]

theorem charOK_not_space {c : Char} (h : charOK c = true) : isPySpace c = false := by
  rw [Bool.eq_false_iff]
  intro hs
  rcases charOK_iff.mp h with h' | h' | h' | h' <;>
    rcases isPySpace_iff.mp hs with hs' | hs' | hs' | hs' | hs' | hs' <;> omega

theorem charOK_not_space_char {c : Char} (h : charOK c = true) : c ≠ ' ' := by
  intro he
  subst he
  simp [charOK_iff] at h

theorem noDD_cons {a : Char} {l : List Char} :
    noDD (a :: l) = true ↔ noDD l = true ∧ ¬(a = '_' ∧ l.head? = some '_') := by
  cases l with
  | nil => simp [noDD]
  | cons b rest =>
    simp only [noDD, Bool.and_eq_true, Bool.not_eq_true', Bool.and_eq_false_iff,
      beq_eq_false_iff_ne, List.head?_cons, Option.some.injEq]
    constructor
    · rintro ⟨h1, h2⟩
      refine ⟨h2, ?_⟩
      rintro ⟨ha, hb⟩
      rcases h1 with h | h
      · exact h ha
      · exact h hb
    · rintro ⟨h2, h1⟩
      refine ⟨?_, h2⟩
      by_cases ha : a = '_'
      · right
        intro hb
        exact h1 ⟨ha, hb⟩
      · left
        exact ha

theorem collapseUnd_cons_ne {d : Char} (hd : d ≠ '_') (c : Char) (rest' : List Char) :
    collapseUnd (c :: d :: rest') = c :: collapseUnd (d :: rest') := by
  refine collapseUnd.eq_3 c (d :: rest') ?_
  intro tail heq
  exact hd (by injection heq)

theorem collapseUnd_cons_skip (rest' : List Char) :
    collapseUnd ('_' :: '_' :: rest') = collapseUnd ('_' :: rest') := by
  rw [collapseUnd.eq_2]
  simp

theorem collapseUnd_cons_keep {c : Char} (hc : c ≠ '_') (rest' : List Char) :
    collapseUnd (c :: '_' :: rest') = c :: collapseUnd ('_' :: rest') := by
  rw [collapseUnd.eq_2]
  simp [hc]

theorem collapseUnd_head : ∀ l : List Char, l ≠ [] → (collapseUnd l).head? = l.head? := by
  intro l
  induction l with
  | nil => intro h; cases h rfl
  | cons c rest ih =>
    intro _
    match rest, ih with
    | [], _ => simp [collapseUnd]
    | d :: rest', ih =>
      by_cases hd : d = '_'
      · subst hd
        by_cases hc : c = '_'
        · subst hc
          rw [collapseUnd_cons_skip, ih (by simp)]
          rfl
        · rw [collapseUnd_cons_keep hc]
          rfl
      · rw [collapseUnd_cons_ne hd]
        rfl

theorem collapseUnd_singleton (c : Char) : collapseUnd [c] = [c] := by
  rw [collapseUnd.eq_3 c [] (by intro tail h; cases h), collapseUnd.eq_1]

theorem collapseUnd_noDD : ∀ l : List Char, noDD (collapseUnd l) = true := by
  intro l
  induction l with
  | nil => rfl
  | cons c rest ih =>
    cases rest with
    | nil =>
      rw [collapseUnd_singleton]
      rfl
    | cons d rest' =>
      by_cases hd : d = '_'
      · subst hd
        by_cases hc : c = '_'
        · subst hc
          rw [collapseUnd_cons_skip]
          exact ih
        · rw [collapseUnd_cons_keep hc]
          rw [noDD_cons]
          refine ⟨ih, ?_⟩
          rintro ⟨hceq, -⟩
          exact hc hceq
      · rw [collapseUnd_cons_ne hd]
        rw [noDD_cons]
        refine ⟨ih, ?_⟩
        rintro ⟨hceq, hhead⟩
        rw [collapseUnd_head _ (by simp)] at hhead
        simp only [List.head?_cons, Option.some.injEq] at hhead
        exact hd hhead

theorem collapseUnd_of_noDD : ∀ l : List Char, noDD l = true → collapseUnd l = l := by
  intro l
  induction l with
  | nil => intro _; rfl
  | cons c rest ih =>
    intro h
    rcases noDD_cons.mp h with ⟨htail, hhead⟩
    cases rest with
    | nil => exact collapseUnd_singleton c
    | cons d rest' =>
      by_cases hd : d = '_'
      · subst hd
        have hc : c ≠ '_' := by
          intro hceq
          exact hhead ⟨hceq, rfl⟩
        rw [collapseUnd_cons_keep hc, ih htail]
      · rw [collapseUnd_cons_ne hd, ih htail]

theorem collapseUnd_subset : ∀ l : List Char, ∀ c ∈ collapseUnd l, c ∈ l := by
  intro l
  induction l with
  | nil => intro c hc; cases hc
  | cons a rest ih =>
    intro c hc
    cases rest with
    | nil =>
      rw [collapseUnd_singleton] at hc
      exact hc
    | cons d rest' =>
      by_cases hd : d = '_'
      · subst hd
        by_cases ha : a = '_'
        · subst ha
          rw [collapseUnd_cons_skip] at hc
          exact List.mem_cons_of_mem _ (ih c hc)
        · rw [collapseUnd_cons_keep ha] at hc
          rcases List.mem_cons.mp hc with h | h
          · subst h
            exact List.mem_cons_self _ _
          · exact List.mem_cons_of_mem _ (ih c h)
      · rw [collapseUnd_cons_ne hd] at hc
        rcases List.mem_cons.mp hc with h | h
        · subst h
          exact List.mem_cons_self _ _
        · exact List.mem_cons_of_mem _ (ih c h)

theorem noDD_take : ∀ (l : List Char) (n : Nat), noDD l = true → noDD (l.take n) = true := by
  intro l
  induction l with
  | nil => intro n _; simp [noDD]
  | cons c rest ih =>
    intro n h
    rcases noDD_cons.mp h with ⟨htail, hhead⟩
    cases n with
    | zero => rfl
    | succ n' =>
      rw [List.take_succ_cons, noDD_cons]
      refine ⟨ih n' htail, ?_⟩
      rintro ⟨hceq, htake⟩
      refine hhead ⟨hceq, ?_⟩
      cases rest with
      | nil => simp at htake
      | cons d rest' =>
        cases n' with
        | zero => simp at htake
        | succ n'' =>
          rw [List.take_succ_cons] at htake
          simpa using htake

theorem rstripUnd_subset : ∀ l : List Char, ∀ c ∈ rstripUnd l, c ∈ l := by
  intro l
  induction l with
  | nil => intro c hc; cases hc
  | cons a rest ih =>
    intro c hc
    simp only [rstripUnd] at hc
    split at hc
    · split at hc
      · cases hc
      · rcases List.mem_singleton.mp hc with h
        subst h
        exact List.mem_cons_self _ _
    · rcases List.mem_cons.mp hc with h | h
      · subst h
        exact List.mem_cons_self _ _
      · exact List.mem_cons_of_mem _ (ih c h)

theorem rstripUnd_length_le : ∀ l : List Char, (rstripUnd l).length ≤ l.length := by
  intro l
  induction l with
  | nil => simp [rstripUnd]
  | cons a rest ih =>
    simp only [rstripUnd]
    split
    · split
      · simp
      · simp
    · simpa using ih

theorem getLast?_cons_ne_nil {a : Char} {l : List Char} (h : l ≠ []) :
    (a :: l).getLast? = l.getLast? := by
  cases l with
  | nil => cases h rfl
  | cons b t => exact List.getLast?_cons_cons

theorem rstripUnd_head : ∀ l : List Char, rstripUnd l ≠ [] →
    (rstripUnd l).head? = l.head? := by
  intro l
  induction l with
  | nil => intro h; cases h rfl
  | cons a rest _ =>
    intro hne
    by_cases he : (rstripUnd rest).isEmpty = true
    · by_cases ha : (a == '_') = true
      · exfalso
        apply hne
        simp only [rstripUnd]
        rw [if_pos he, if_pos ha]
      · simp only [rstripUnd]
        rw [if_pos he, if_neg ha]
        rfl
    · simp only [rstripUnd]
      rw [if_neg he]
      rfl

theorem rstripUnd_noDD : ∀ l : List Char, noDD l = true → noDD (rstripUnd l) = true := by
  intro l
  induction l with
  | nil => intro _; rfl
  | cons a rest ih =>
    intro h
    rcases noDD_cons.mp h with ⟨htail, hhead⟩
    simp only [rstripUnd]
    split
    · split
      · rfl
      · rfl
    · rename_i hne
      rw [noDD_cons]
      refine ⟨ih htail, ?_⟩
      rintro ⟨haeq, hh⟩
      have hrne : rstripUnd rest ≠ [] := by
        intro hnil
        rw [hnil] at hne
        simp at hne
      rw [rstripUnd_head rest hrne] at hh
      refine hhead ⟨haeq, hh⟩

theorem rstripUnd_last : ∀ l : List Char,
    rstripUnd l = [] ∨ (rstripUnd l).getLast? ≠ some '_' := by
  intro l
  induction l with
  | nil => exact Or.inl rfl
  | cons a rest ih =>
    simp only [rstripUnd]
    split
    · split
      · exact Or.inl rfl
      · rename_i hne
        right
        simp only [List.getLast?_singleton, ne_eq, Option.some.injEq]
        intro h
        exact (by simpa using hne : ¬ a = '_') h
    · rename_i hne
      right
      have hrne : rstripUnd rest ≠ [] := by
        intro hnil
        rw [hnil] at hne
        simp at hne
      rcases ih with h | h
      · exact absurd h hrne
      · rw [getLast?_cons_ne_nil hrne]
        exact h

theorem rstripUnd_fix : ∀ l : List Char, l.getLast? ≠ some '_' → rstripUnd l = l := by
  intro l
  induction l with
  | nil => intro _; rfl
  | cons a rest ih =>
    intro h
    cases rest with
    | nil =>
      simp only [List.getLast?_singleton, ne_eq, Option.some.injEq] at h
      simp only [rstripUnd]
      rw [if_pos (by rfl), if_neg (by simpa using h)]
    | cons d rest' =>
      rw [getLast?_cons_ne_nil (by simp)] at h
      have hr := ih h
      rw [rstripUnd.eq_2, hr]
      rw [if_neg (by simp)]

theorem noDD_map_lower : ∀ l : List Char, noDD l = true →
    noDD (l.map lowerChar) = true := by
  intro l
  induction l with
  | nil => intro _; rfl
  | cons a rest ih =>
    intro h
    rcases noDD_cons.mp h with ⟨htail, hhead⟩
    rw [List.map_cons, noDD_cons]
    refine ⟨ih htail, ?_⟩
    rintro ⟨haeq, hh⟩
    rw [List.head?_map] at hh
    cases rest with
    | nil => simp at hh
    | cons d rest' =>
      simp only [List.head?_cons, Option.map_some', Option.some.injEq] at hh
      exact hhead ⟨lowerChar_underscore_iff.mp haeq, by
        rw [lowerChar_underscore_iff.mp hh]
        simp⟩

theorem getLast?_map_lower {l : List Char} (h : l.getLast? ≠ some '_') :
    (l.map lowerChar).getLast? ≠ some '_' := by
  induction l with
  | nil => simp
  | cons a rest ih =>
    cases rest with
    | nil =>
      simp only [List.map_cons, List.map_nil, List.getLast?_singleton, ne_eq,
        Option.some.injEq] at h ⊢
      intro hla
      exact h (lowerChar_underscore_iff.mp hla)
    | cons d rest' =>
      rw [getLast?_cons_ne_nil (by simp)] at h
      rw [List.map_cons, getLast?_cons_ne_nil (by simp)]
      exact ih h

theorem dropWhile_eq_self_of {p : Char → Bool} {l : List Char}
    (h : ∀ c ∈ l, p c = false) : l.dropWhile p = l := by
  cases l with
  | nil => rfl
  | cons a rest =>
    rw [List.dropWhile_cons, if_neg (by simp [h a (List.mem_cons_self _ _)])]

theorem pyStrip_eq_self {l : List Char} (h : ∀ c ∈ l, isPySpace c = false) :
    pyStrip l = l := by
  unfold pyStrip
  rw [dropWhile_eq_self_of h]
  rw [dropWhile_eq_self_of (fun c hc => h c (List.mem_reverse.mp hc))]
  exact List.reverse_reverse l

theorem map_eq_self_of {f : Char → Char} {l : List Char}
    (h : ∀ c ∈ l, f c = c) : l.map f = l := by
  rw [List.map_congr_left h]
  simp

theorem kept_of_charOK {c : Char} (h : charOK c = true) :
    (isAlnumAscii c || c == '_' || c == '-') = true := by
  simp only [Bool.or_eq_true, beq_iff_eq]
  rcases charOK_iff.mp h with h' | h' | h' | h'
  · exact Or.inl (Or.inl (isAlnumAscii_iff.mpr (Or.inr (Or.inl h'))))
  · exact Or.inl (Or.inl (isAlnumAscii_iff.mpr (Or.inr (Or.inr h'))))
  · exact Or.inl (Or.inr (char_toNat_inj (by rw [h']; rfl)))
  · exact Or.inr (char_toNat_inj (by rw [h']; rfl))

theorem sanitize_ascii_props (x : List Char) :
    (∀ c ∈ sanitize_filename_ascii x, charOK c = true) ∧
    (sanitize_filename_ascii x).length ≤ MAX_FILENAME_LENGTH ∧
    (sanitize_filename_ascii x).getLast? ≠ some '_' ∧
    noDD (sanitize_filename_ascii x) = true ∧
    sanitize_filename_ascii x ≠ [] := by
  by_cases hblank : (x.isEmpty || (pyStrip x).isEmpty) = true
  · rw [show sanitize_filename_ascii x = "unknown_file".toList by
      simp only [sanitize_filename_ascii]
      rw [if_pos hblank]]
    refine ⟨by decide, by decide, by decide, by decide, by decide⟩
  · have hx : sanitize_filename_ascii x =
        (if (rstripUnd ((collapseUnd
            (((pyStrip x).map (fun c => if c == ' ' then '_' else c)).filter
              (fun c => isAlnumAscii c || c == '_' || c == '-'))).take
            MAX_FILENAME_LENGTH)).isEmpty then "file".toList
         else rstripUnd ((collapseUnd
            (((pyStrip x).map (fun c => if c == ' ' then '_' else c)).filter
              (fun c => isAlnumAscii c || c == '_' || c == '-'))).take
            MAX_FILENAME_LENGTH)).map lowerChar := by
      simp only [sanitize_filename_ascii]
      rw [if_neg hblank]
    by_cases h5 : (rstripUnd ((collapseUnd
        (((pyStrip x).map (fun c => if c == ' ' then '_' else c)).filter
          (fun c => isAlnumAscii c || c == '_' || c == '-'))).take
        MAX_FILENAME_LENGTH)).isEmpty = true
    · rw [hx, if_pos h5]
      refine ⟨by decide, by decide, by decide, by decide, by decide⟩
    · rw [hx, if_neg h5]
      have hsub : ∀ d ∈ rstripUnd ((collapseUnd
          (((pyStrip x).map (fun c => if c == ' ' then '_' else c)).filter
            (fun c => isAlnumAscii c || c == '_' || c == '-'))).take
          MAX_FILENAME_LENGTH),
          (isAlnumAscii d || d == '_' || d == '-') = true := by
        intro d hd
        have hd2 := rstripUnd_subset _ d hd
        have hd3 := List.take_subset _ _ hd2
        have hd4 := collapseUnd_subset _ d hd3
        exact (List.mem_filter.mp hd4).2
      refine ⟨?_, ?_, ?_, ?_, ?_⟩
      · intro c hc
        rcases List.mem_map.mp hc with ⟨d, hd, hde⟩
        subst hde
        exact charOK_of_kept (hsub d hd)
      · rw [List.length_map]
        calc (rstripUnd _).length ≤ _ := rstripUnd_length_le _
          _ ≤ MAX_FILENAME_LENGTH := by
            rw [List.length_take]
            exact min_le_left _ _
      · apply getLast?_map_lower
        rcases rstripUnd_last ((collapseUnd
            (((pyStrip x).map (fun c => if c == ' ' then '_' else c)).filter
              (fun c => isAlnumAscii c || c == '_' || c == '-'))).take
            MAX_FILENAME_LENGTH) with h | h
        · exact absurd h (ne_nil_of_isEmpty_false (by simpa using h5))
        · exact h
      · exact noDD_map_lower _ (rstripUnd_noDD _ (noDD_take _ _ (collapseUnd_noDD _)))
      · intro hnil
        rcases List.map_eq_nil_iff.mp hnil with h
        exact (ne_nil_of_isEmpty_false (by simpa using h5)) h

theorem sanitize_ascii_fixed {l : List Char}
    (hOK : ∀ c ∈ l, charOK c = true) (hDD : noDD l = true)
    (hlast : l.getLast? ≠ some '_') (hne : l ≠ [])
    (hlen : l.length ≤ MAX_FILENAME_LENGTH) :
    sanitize_filename_ascii l = l := by
  have hspace : ∀ c ∈ l, isPySpace c = false := fun c hc => charOK_not_space (hOK c hc)
  have hstrip : pyStrip l = l := pyStrip_eq_self hspace
  simp only [sanitize_filename_ascii]
  rw [if_neg (by
    rw [Bool.or_eq_true, not_or, hstrip]
    constructor
    · intro h
      exact hne (eq_nil_of_isEmpty_true h)
    · intro h
      exact hne (eq_nil_of_isEmpty_true h))]
  rw [hstrip]
  have hmap1 : l.map (fun c => if c == ' ' then '_' else c) = l :=
    map_eq_self_of (fun c hc => by
      rw [if_neg]
      simp only [beq_iff_eq]
      exact charOK_not_space_char (hOK c hc))
  have hfilt : l.filter (fun c => isAlnumAscii c || c == '_' || c == '-') = l :=
    List.filter_eq_self.mpr (fun c hc => kept_of_charOK (hOK c hc))
  rw [hmap1, hfilt, collapseUnd_of_noDD l hDD, List.take_of_length_le hlen,
    rstripUnd_fix l hlast]
  rw [if_neg (by
    intro h
    exact hne (eq_nil_of_isEmpty_true h))]
  exact map_eq_self_of (fun c hc => lowerChar_fix (hOK c hc))

theorem charOK_ascii {c : Char} (h : charOK c = true) : c.toNat < 128 := by
  rcases charOK_iff.mp h with h' | h' | h' | h' <;> omega

theorem mem_of_mem_dropWhile {p : Char → Bool} {c : Char} :
    ∀ {l : List Char}, c ∈ l.dropWhile p → c ∈ l := by
  intro l
  induction l with
  | nil => intro h; exact h
  | cons a rest ih =>
    intro h
    rw [List.dropWhile_cons] at h
    split at h
    · exact List.mem_cons_of_mem _ (ih h)
    · exact h

theorem pyStrip_subset {c : Char} {l : List Char} (h : c ∈ pyStrip l) : c ∈ l := by
  unfold pyStrip at h
  exact mem_of_mem_dropWhile (List.mem_reverse.mp (mem_of_mem_dropWhile (List.mem_reverse.mp h)))

theorem pyIsAlnum_ascii {c : Char} (h : c.toNat < 128) : pyIsAlnum c = isAlnumAscii c := by
  unfold pyIsAlnum
  have h1 : (c == 'é') = false := by
    rw [beq_eq_false_iff_ne]
    intro he
    rw [he] at h
    exact absurd h (by decide)
  have h2 : (c == 'É') = false := by
    rw [beq_eq_false_iff_ne]
    intro he
    rw [he] at h
    exact absurd h (by decide)
  have h3 : (c == 'İ') = false := by
    rw [beq_eq_false_iff_ne]
    intro he
    rw [he] at h
    exact absurd h (by decide)
  rw [h1, h2, h3]
  simp

theorem pyLowerChar_ne_nil (c : Char) : pyLowerChar c ≠ [] := by
  unfold pyLowerChar
  split
  · simp
  · split
    · simp
    · simp

theorem pyLowerChar_ascii {c : Char} (h : c.toNat < 128) : pyLowerChar c = [lowerChar c] := by
  unfold pyLowerChar lowerChar
  rw [if_neg (by
    intro he
    rw [he] at h
    exact absurd h (by decide))]
  by_cases hc : (65 ≤ c.toNat && c.toNat ≤ 90) = true
  · rw [if_pos hc, if_pos hc]
  · rw [if_neg hc, if_neg hc]

theorem pyLowerChar_last {c : Char} (h : c ≠ '_') :
    (pyLowerChar c).getLast? ≠ some '_' := by
  unfold pyLowerChar
  by_cases hI : c = 'İ'
  · rw [if_pos hI]
    decide
  · rw [if_neg hI]
    by_cases hc : (65 ≤ c.toNat && c.toNat ≤ 90) = true
    · rw [if_pos hc]
      simp only [List.getLast?_singleton, ne_eq, Option.some.injEq]
      intro heq
      have hn := char_eq_iff_toNat.mp heq
      simp only [Bool.and_eq_true, decide_eq_true_eq] at hc
      rw [ofNat_toNat_small (by omega)] at hn
      have h95 : ('_' : Char).toNat = 95 := rfl
      rw [h95] at hn
      omega
    · rw [if_neg hc]
      simp only [List.getLast?_singleton, ne_eq, Option.some.injEq]
      exact h

theorem pyLowerStr_ne_nil {l : List Char} (h : l ≠ []) : pyLowerStr l ≠ [] := by
  cases l with
  | nil => cases h rfl
  | cons a rest =>
    unfold pyLowerStr
    rw [List.flatMap_cons]
    intro hn
    exact pyLowerChar_ne_nil a (List.append_eq_nil.mp hn).1

theorem getLast?_append_right {l l' : List Char} (h : l' ≠ []) :
    (l ++ l').getLast? = l'.getLast? := by
  rw [List.getLast?_append]
  rcases hx : l'.getLast? with _ | x
  · exact absurd (List.getLast?_eq_none_iff.mp hx) h
  · rfl

theorem pyLowerStr_last : ∀ {l : List Char}, l ≠ [] → l.getLast? ≠ some '_' →
    (pyLowerStr l).getLast? ≠ some '_' := by
  intro l
  induction l with
  | nil => intro h; cases h rfl
  | cons a rest ih =>
    intro _ hlast
    cases rest with
    | nil =>
      show (([a] : List Char).flatMap pyLowerChar).getLast? ≠ some '_'
      rw [List.flatMap_cons, List.flatMap_nil, List.append_nil]
      rw [List.getLast?_singleton] at hlast
      exact pyLowerChar_last (by simpa using hlast)
    | cons d rest' =>
      rw [getLast?_cons_ne_nil (by simp)] at hlast
      show ((a :: d :: rest').flatMap pyLowerChar).getLast? ≠ some '_'
      rw [List.flatMap_cons,
        show (d :: rest').flatMap pyLowerChar = pyLowerStr (d :: rest') from rfl]
      rw [getLast?_append_right (pyLowerStr_ne_nil (by simp))]
      exact ih (by simp) hlast

theorem pyLowerStr_ascii : ∀ {l : List Char}, (∀ c ∈ l, c.toNat < 128) →
    pyLowerStr l = l.map lowerChar := by
  intro l
  induction l with
  | nil => intro _; rfl
  | cons a rest ih =>
    intro h
    show (a :: rest).flatMap pyLowerChar = _
    rw [List.flatMap_cons, pyLowerChar_ascii (h a (List.mem_cons_self _ _)),
      show rest.flatMap pyLowerChar = pyLowerStr rest from rfl,
      ih (fun c hc => h c (List.mem_cons_of_mem _ hc)), List.map_cons,
      List.singleton_append]

theorem s1_ascii {x : List Char} (hx : ∀ c ∈ x, c.toNat < 128) :
    ∀ d ∈ (pyStrip x).map (fun c => if c == ' ' then '_' else c), d.toNat < 128 := by
  intro d hd
  rcases List.mem_map.mp hd with ⟨c, hc, he⟩
  subst he
  by_cases hsp : (c == ' ') = true
  · rw [if_pos hsp]
    decide
  · rw [if_neg hsp]
    exact hx c (pyStrip_subset hc)

theorem sanitize_ascii_eq {x : List Char} (hx : ∀ c ∈ x, c.toNat < 128) :
    sanitize_filename x = sanitize_filename_ascii x := by
  simp only [sanitize_filename, sanitize_filename_ascii]
  by_cases hblank : (x.isEmpty || (pyStrip x).isEmpty) = true
  · rw [if_pos hblank, if_pos hblank]
  · rw [if_neg hblank, if_neg hblank]
    have h1 := s1_ascii hx
    have hf : ((pyStrip x).map (fun c => if c == ' ' then '_' else c)).filter
        (fun c => pyIsAlnum c || c == '_' || c == '-')
        = ((pyStrip x).map (fun c => if c == ' ' then '_' else c)).filter
          (fun c => isAlnumAscii c || c == '_' || c == '-') :=
      List.filter_congr (fun c hc => by rw [pyIsAlnum_ascii (h1 c hc)])
    rw [hf]
    have hs5ascii : ∀ d ∈ rstripUnd ((collapseUnd
        (((pyStrip x).map (fun c => if c == ' ' then '_' else c)).filter
          (fun c => isAlnumAscii c || c == '_' || c == '-'))).take
        MAX_FILENAME_LENGTH), d.toNat < 128 := by
      intro d hd
      exact h1 d (List.mem_filter.mp (collapseUnd_subset _ d
        (List.take_subset _ _ (rstripUnd_subset _ d hd)))).1
    by_cases h5 : (rstripUnd ((collapseUnd
        (((pyStrip x).map (fun c => if c == ' ' then '_' else c)).filter
          (fun c => isAlnumAscii c || c == '_' || c == '-'))).take
        MAX_FILENAME_LENGTH)).isEmpty = true
    · rw [if_pos h5]
      decide
    · rw [if_neg h5]
      exact pyLowerStr_ascii hs5ascii

theorem sanitize_last_universal (x : List Char) :
    (sanitize_filename x).getLast? ≠ some '_' := by
  simp only [sanitize_filename]
  by_cases hblank : (x.isEmpty || (pyStrip x).isEmpty) = true
  · rw [if_pos hblank]
    decide
  · rw [if_neg hblank]
    by_cases h5 : (rstripUnd ((collapseUnd
        (((pyStrip x).map (fun c => if c == ' ' then '_' else c)).filter
          (fun c => pyIsAlnum c || c == '_' || c == '-'))).take
        MAX_FILENAME_LENGTH)).isEmpty = true
    · rw [if_pos h5]
      decide
    · rw [if_neg h5]
      apply pyLowerStr_last (ne_nil_of_isEmpty_false (by simpa using h5))
      rcases rstripUnd_last ((collapseUnd
          (((pyStrip x).map (fun c => if c == ' ' then '_' else c)).filter
            (fun c => pyIsAlnum c || c == '_' || c == '-'))).take
          MAX_FILENAME_LENGTH) with h | h
      · exact absurd h (ne_nil_of_isEmpty_false (by simpa using h5))
      · exact h

set_option maxRecDepth 40000 in
/-- C7 (counterexample): `sanitize_filename` as the source defines it uses
Python's Unicode `isalnum` and `lower`, so the claim's universal conjuncts
fail: "café!!" sanitizes to "café", whose 'é' lies outside `[a-z0-9_-]`;
fifty dotted capital 'İ' characters survive truncation at 50 and then
lower-case to two codepoints each, exceeding the configured maximum
length; and re-sanitizing the output of "İ" drops the combining dot that
lower-casing introduced, breaking idempotence. -/
theorem sanitize_filename_unicode_counterexample :
    (∃ c ∈ sanitize_filename "café!!".toList, charOK c = false) ∧
    MAX_FILENAME_LENGTH < (sanitize_filename (List.replicate 50 'İ')).length ∧
    sanitize_filename (sanitize_filename ['İ']) ≠ sanitize_filename ['İ'] := by
  decide

/-- C7 (amended): `sanitize_filename` never produces an output ending in
an underscore; blank or whitespace-only input yields the documented
fallback "unknown_file" and input whose characters are all dropped (such
as "!!!???") yields the documented fallback "file"; and on input made of
ASCII characters it is idempotent, produces only characters from
`[a-z0-9_-]`, and respects the configured maximum filename length.  On
non-ASCII input the last three properties can fail, because Python's
Unicode `isalnum` keeps non-ASCII alphanumerics and Unicode lower-casing
can lengthen the string after truncation. -/
theorem sanitize_filename_amended :
    (∀ x : List Char, (sanitize_filename x).getLast? ≠ some '_') ∧
    (∀ x : List Char, (∀ c ∈ x, c.toNat < 128) →
      sanitize_filename (sanitize_filename x) = sanitize_filename x ∧
      (∀ c ∈ sanitize_filename x, charOK c = true) ∧
      (sanitize_filename x).length ≤ MAX_FILENAME_LENGTH) ∧
    sanitize_filename [] = "unknown_file".toList ∧
    sanitize_filename "   ".toList = "unknown_file".toList ∧
    sanitize_filename "!!!???".toList = "file".toList := by
  refine ⟨sanitize_last_universal, ?_, by decide, by decide, by decide⟩
  intro x hx
  have heq := sanitize_ascii_eq hx
  obtain ⟨p1, p2, p3, p4, p5⟩ := sanitize_ascii_props x
  have hyascii : ∀ c ∈ sanitize_filename_ascii x, c.toNat < 128 :=
    fun c hc => charOK_ascii (p1 c hc)
  refine ⟨?_, ?_, ?_⟩
  · rw [heq, sanitize_ascii_eq hyascii]
    exact sanitize_ascii_fixed p1 p4 p3 p5 p2
  · rw [heq]
    exact p1
  · rw [heq]
    exact p2

theorem sanitize_filename_amended_witness :
    sanitize_filename (sanitize_filename "Tesla Model 3 review!!".toList)
        = sanitize_filename "Tesla Model 3 review!!".toList ∧
    charOK 'a' = true :=
  ⟨(sanitize_filename_amended.2.1 "Tesla Model 3 review!!".toList (by decide)).1,
   (sanitize_filename_amended.2.1 "a".toList (by decide)).2.1 'a' (by decide)⟩

theorem get_unique_comments_length_filter_witness :
    3 ≤ ({ author := "a".toList, text := "wow".toList, likes := 0,
           published_at := "t".toList, author_profile := [],
           source := "youtube".toList, video_title := "T".toList,
           subreddit := [], replies := [] } : UComment).text.length :=
  (get_unique_comments_length_filter.1
    [{ source := some "youtube".toList, video_info := some ⟨"T".toList⟩,
       post_info := none,
       comments := [{ author := "a".toList, text := "wow".toList, likes := none,
                      published_at := "t".toList, author_profile := none,
                      replies := [] }] }]).2.1
    { author := "a".toList, text := "wow".toList, likes := 0,
      published_at := "t".toList, author_profile := [],
      source := "youtube".toList, video_title := "T".toList,
      subreddit := [], replies := [] } (by decide)
